import Mathlib

/-!
Verification of the branchable history store of the Cadence repository,
shallowly embedded from `common/persistence/sql/sql_history_store.go` and
`common/persistence/persistence-utils/history_manager_util.go`.

Identifiers (`treeId`, `branchId`) are modelled as `String`, 64-bit signed
integers (`nodeId`, `txnId`, `shardId`, page sizes, rows-affected counts) as
`Int` (no arithmetic in the source can overflow 64 bits on the inputs the
store accepts, so no wrap-around modelling is needed), byte blobs as
`List Nat`.

Backend SQL primitives (`InsertIntoHistoryNode`, `SelectFromHistoryNode`,
`DeleteFromHistoryNode`, `SelectFromHistoryTree`, ...) and the serializer
are not part of the given sources; where a claim depends on them they are
modelled from the spec, and each such definition says so in its doc comment.
-/

/-- One ancestor range of a branch: the branch inherits nodes
`[beginNodeID, endNodeID)` of branch `branchID` (`types.HistoryBranchRange`). -/
structure HistoryBranchRange where
  branchID : String
  beginNodeID : Int
  endNodeID : Int
  deriving Repr, DecidableEq, Inhabited

/-- A branch descriptor (`types.HistoryBranch`). -/
structure HistoryBranch where
  treeID : String
  branchID : String
  ancestors : List HistoryBranchRange
  deriving Repr, DecidableEq, Inhabited

/-- An encoded event batch with its encoding tag (`persistence.DataBlob`). -/
structure DataBlob where
  data : List Nat
  encoding : String
  deriving Repr, DecidableEq, Inhabited

/-- One row of the `history_node` table (`sqlplugin.HistoryNodeRow`). -/
structure HistoryNodeRow where
  treeID : String
  branchID : String
  nodeID : Int
  txnID : Int
  data : List Nat
  dataEncoding : String
  shardID : Int
  deriving Repr, DecidableEq, Inhabited

/-- Decoded tree-metadata payload (`serialization.HistoryTreeInfo`). -/
structure HistoryTreeInfo where
  ancestors : List HistoryBranchRange
  info : String
  createdTimestamp : Int
  deriving Repr, DecidableEq, Inhabited

/-- One row of the `history_tree` table (`sqlplugin.HistoryTreeRow`).

Modelled from the spec: the serializer (`parser.HistoryTreeInfoToBlob` /
`HistoryTreeInfoFromBlob`, not under the given sources) round-trips
`{ancestors, info, createdAt}`, so the row stores the decoded record
directly instead of a tagged byte blob. -/
structure HistoryTreeRow where
  shardID : Int
  treeID : String
  branchID : String
  data : HistoryTreeInfo
  deriving Repr, DecidableEq, Inhabited

/-- The persisted state the store operates on: the `history_tree` and
`history_node` tables. -/
structure HistoryStoreState where
  treeRows : List HistoryTreeRow
  nodeRows : List HistoryNodeRow
  deriving Repr, DecidableEq, Inhabited

/-- The closed error taxonomy surfaced by the store, one constructor per Go
error type used in `sql_history_store.go`. -/
inductive StoreError where
  /-- `persistence.InvalidPersistenceRequestError` -/
  | invalidRequest (msg : String)
  /-- `persistence.ConditionFailedError` -/
  | conditionFailed (msg : String)
  /-- `types.InternalDataInconsistencyError` -/
  | dataInconsistency (msg : String)
  /-- `types.InternalServiceError` -/
  | internalService (msg : String)
  /-- an error of the backend driver, converted by `convertCommonErrors` -/
  | backend (msg : String)
  deriving Repr, DecidableEq

/-- `persistenceutils.GetBeginNodeID`: the first node id the branch owns
natively — the last ancestor's (exclusive) `endNodeID`, or `1` for a root
branch without ancestors. -/
def GetBeginNodeID (bi : HistoryBranch) : Int :=
  match bi.ancestors.getLast? with
  | none => 1
  | some br => br.endNodeID

/-- The event blob a node row carries (`row.Data`, `row.DataEncoding`). -/
def rowBlob (row : HistoryNodeRow) : DataBlob :=
  { data := row.data, encoding := row.dataEncoding }

/-- The row-walk loop of `ReadHistoryBranch` (`sql_history_store.go`
lines 199-243): walk the backend rows with the caller's watermark
`(lastNodeID, lastTxnID)`, skipping stale rows (`txnID < lastTxnID`) while
still advancing the node-id watermark, rejecting non-monotonic data, and
accepting each first non-stale row of a strictly larger node id. -/
def readRows : List HistoryNodeRow → Int → Int →
    Except StoreError (List DataBlob × Int × Int)
  | [], lastNodeID, lastTxnID => .ok ([], lastNodeID, lastTxnID)
  | row :: rest, lastNodeID, lastTxnID =>
    if row.txnID < lastTxnID then
      if row.nodeID < lastNodeID then
        .error (.dataInconsistency "corrupted data, nodeID cannot decrease")
      else if lastNodeID < row.nodeID then
        readRows rest row.nodeID lastTxnID
      else
        readRows rest lastNodeID lastTxnID
    else
      if row.nodeID < lastNodeID then
        .error (.dataInconsistency "corrupted data, nodeID cannot decrease")
      else if row.nodeID = lastNodeID then
        .error (.dataInconsistency "corrupted data, same nodeID must have smaller txnID")
      else
        match readRows rest row.nodeID row.txnID with
        | .error e => .error e
        | .ok (hist, ln, lt) => .ok (rowBlob row :: hist, ln, lt)

instance {ε : Type u} {α : Type v} [DecidableEq ε] [DecidableEq α] :
    DecidableEq (Except ε α)
  | .error a, .error b =>
    if h : a = b then .isTrue (by rw [h])
    else .isFalse (by intro hc; cases hc; exact h rfl)
  | .error _, .ok _ => .isFalse (by intro hc; cases hc)
  | .ok _, .error _ => .isFalse (by intro hc; cases hc)
  | .ok a, .ok b =>
    if h : a = b then .isTrue (by rw [h])
    else .isFalse (by intro hc; cases hc; exact h rfl)

/-- The order the backend guarantees on a selected page
(`nodeId` ascending, then `txnId` descending). -/
def rowLE (a b : HistoryNodeRow) : Prop :=
  a.nodeID < b.nodeID ∨ (a.nodeID = b.nodeID ∧ b.txnID ≤ a.txnID)

instance : DecidableRel rowLE := fun a b => by
  unfold rowLE; infer_instance

/-- Filter of a `history_node` page select (`sqlplugin.HistoryNodeFilter`). -/
structure HistoryNodeFilter where
  treeID : String
  branchID : String
  minNodeID : Int
  maxNodeID : Int
  pageSize : Int
  shardID : Int
  deriving Repr, DecidableEq, Inhabited

/-- `persistence.InternalReadHistoryBranchRequest`.  `nextPageToken` is
`none` for Go's nil slice and `some []` for a present-but-empty slice. -/
structure InternalReadHistoryBranchRequest where
  treeID : String
  branchID : String
  minNodeID : Int
  maxNodeID : Int
  pageSize : Int
  nextPageToken : Option (List Int)
  lastNodeID : Int
  lastTransactionID : Int
  shardID : Int
  deriving Repr, DecidableEq, Inhabited

/-- `persistence.InternalReadHistoryBranchResponse`. -/
structure InternalReadHistoryBranchResponse where
  history : List DataBlob
  nextPageToken : Option (List Int)
  lastNodeID : Int
  lastTransactionID : Int
  deriving Repr, DecidableEq, Inhabited

/-- Modelled from the spec: `serializePageToken` (not under the given
sources) writes a signed 64-bit `lastNodeId` in a fixed byte format; it is
modelled as the one-element list, which is in particular never empty. -/
def serializePageToken (n : Int) : List Int := [n]

/-- Modelled from the spec: `deserializePageToken` (not under the given
sources) is the inverse of `serializePageToken` and fails on any byte string
that is not a serialized 64-bit integer. -/
def deserializePageToken (b : List Int) : Option Int :=
  match b with
  | [n] => some n
  | _ => none

/-- The token-handling prefix of `ReadHistoryBranch` (lines 161-177): a
non-nil, non-empty page token replaces the requested `minNodeID` by the
decoded watermark plus one; a malformed token is an internal error. -/
def effectiveMinNodeID (req : InternalReadHistoryBranchRequest) : Except StoreError Int :=
  match req.nextPageToken with
  | some tok =>
    if tok = [] then .ok req.minNodeID
    else
      match deserializePageToken tok with
      | none => .error (.internalService "invalid next page token")
      | some n => .ok (n + 1)
  | none => .ok req.minNodeID

/-- The `HistoryNodeFilter` that `ReadHistoryBranch` hands to
`SelectFromHistoryNode` (lines 179-186). -/
def mkReadFilter (req : InternalReadHistoryBranchRequest) (minNodeID : Int) :
    HistoryNodeFilter :=
  { treeID := req.treeID, branchID := req.branchID, minNodeID := minNodeID,
    maxNodeID := req.maxNodeID, pageSize := req.pageSize, shardID := req.shardID }

/-- `ReadHistoryBranch` (lines 156-256).  The backend page select
`SelectFromHistoryNode` is abstracted as the function `db` from filters to
row lists (its rows are expected sorted by `nodeId` asc, `txnId` desc);
a backend that returns no rows yields the all-zero empty response. -/
def readHistoryBranch (db : HistoryNodeFilter → List HistoryNodeRow)
    (req : InternalReadHistoryBranchRequest) :
    Except StoreError InternalReadHistoryBranchResponse :=
  match effectiveMinNodeID req with
  | .error e => .error e
  | .ok minNodeID =>
    let rows := db (mkReadFilter req minNodeID)
    if rows = [] then
      .ok { history := [], nextPageToken := none, lastNodeID := 0, lastTransactionID := 0 }
    else
      match readRows rows req.lastNodeID req.lastTransactionID with
      | .error e => .error e
      | .ok (history, lastNodeID, lastTxnID) =>
        .ok { history := history,
              nextPageToken :=
                if req.pageSize ≤ (rows.length : Int) then
                  some (serializePageToken lastNodeID)
                else none,
              lastNodeID := lastNodeID,
              lastTransactionID := lastTxnID }

/-- `persistence.InternalAppendHistoryNodesRequest`. -/
structure InternalAppendHistoryNodesRequest where
  isNewBranch : Bool
  info : String
  branchInfo : HistoryBranch
  nodeID : Int
  events : DataBlob
  transactionID : Int
  shardID : Int
  deriving Repr, DecidableEq, Inhabited

/-- Outcome of one backend insert, as seen by the store: either a driver
error (with the `IsDupEntryError` classification the driver reports for
it), or success with a rows-affected count. -/
inductive SqlResult where
  | err (msg : String) (isDup : Bool)
  | ok (rowsAffected : Int)
  deriving Repr, DecidableEq

/-- Modelled from the spec: `txExecute` (not under the given sources) runs
the body inside one backend transaction — on error the transaction is
rolled back and the state is unchanged, on success the body's writes are
applied atomically. -/
def txExecute (s : HistoryStoreState)
    (body : HistoryStoreState → Except StoreError HistoryStoreState) :
    Except StoreError Unit × HistoryStoreState :=
  match body s with
  | .error e => (.error e, s)
  | .ok s2 => (.ok (), s2)

/-- The node row `AppendHistoryNodes` builds (lines 83-91). -/
def appendNodeRow (req : InternalAppendHistoryNodesRequest) : HistoryNodeRow :=
  { treeID := req.branchInfo.treeID, branchID := req.branchInfo.branchID,
    nodeID := req.nodeID, txnID := req.transactionID,
    data := req.events.data, dataEncoding := req.events.encoding,
    shardID := req.shardID }

/-- The tree row `AppendHistoryNodes` builds for a new branch
(lines 94-114); `now` stands for `time.Now()`. -/
def appendTreeRow (req : InternalAppendHistoryNodesRequest) (now : Int) : HistoryTreeRow :=
  { shardID := req.shardID, treeID := req.branchInfo.treeID,
    branchID := req.branchInfo.branchID,
    data := { ancestors := req.branchInfo.ancestors, info := req.info,
              createdTimestamp := now } }

/-- `AppendHistoryNodes` (lines 69-153).  The two backend inserts are
abstracted by the outcomes `nodeRes` and `treeRes`; on `SqlResult.ok` the
inserted row is appended to the table. -/
def appendHistoryNodes (req : InternalAppendHistoryNodesRequest) (now : Int)
    (nodeRes treeRes : SqlResult) (s : HistoryStoreState) :
    Except StoreError Unit × HistoryStoreState :=
  if req.nodeID < GetBeginNodeID req.branchInfo then
    (.error (.invalidRequest "cannot append to ancestors' nodes"), s)
  else if req.isNewBranch then
    txExecute s (fun st =>
      match nodeRes with
      | .err m _ => .error (.backend m)
      | .ok n =>
        let st1 := { st with nodeRows := st.nodeRows ++ [appendNodeRow req] }
        if n ≠ 1 then .error (.internalService "expected 1 row to be affected for node table")
        else
          match treeRes with
          | .err m _ => .error (.backend m)
          | .ok k =>
            let st2 := { st1 with treeRows := st1.treeRows ++ [appendTreeRow req now] }
            if k ≠ 1 then .error (.internalService "expected 1 row to be affected for tree table")
            else .ok st2)
  else
    match nodeRes with
    | .err m isDup =>
      if isDup then
        (.error (.conditionFailed ("AppendHistoryNodes: row already exist: " ++ m)), s)
      else (.error (.backend m), s)
    | .ok _ => (.ok (), { s with nodeRows := s.nodeRows ++ [appendNodeRow req] })

/-- `persistence.InternalForkHistoryBranchRequest`. -/
structure InternalForkHistoryBranchRequest where
  forkBranchInfo : HistoryBranch
  forkNodeID : Int
  newBranchID : String
  info : String
  shardID : Int
  deriving Repr, DecidableEq, Inhabited

/-- `persistence.InternalForkHistoryBranchResponse`. -/
structure InternalForkHistoryBranchResponse where
  newBranchInfo : HistoryBranch
  deriving Repr, DecidableEq, Inhabited

/-- The ancestor-copying loop of `ForkHistoryBranch` for the case where the
fork point lies within an inherited ancestor (lines 317-328): copy each
ancestor ending strictly before the fork point; at the first one reaching it,
emit it with `endNodeID` truncated to the fork point and stop. -/
def forkCopyAncestors (forkNodeID : Int) :
    List HistoryBranchRange → List HistoryBranchRange
  | [] => []
  | br :: rest =>
    if forkNodeID ≤ br.endNodeID then
      [{ branchID := br.branchID, beginNodeID := br.beginNodeID, endNodeID := forkNodeID }]
    else br :: forkCopyAncestors forkNodeID rest

/-- The ancestor list of the forked branch (lines 312-337). -/
def forkAncestors (forkB : HistoryBranch) (forkNodeID : Int) :
    List HistoryBranchRange :=
  let beginNodeID := GetBeginNodeID forkB
  if forkNodeID ≤ beginNodeID then
    forkCopyAncestors forkNodeID forkB.ancestors
  else
    forkB.ancestors ++
      [{ branchID := forkB.branchID, beginNodeID := beginNodeID, endNodeID := forkNodeID }]

/-- `ForkHistoryBranch` (lines 305-376).  The tree-row insert outcome is
abstracted by `insRes`; `now` stands for `time.Now()`. -/
def forkHistoryBranch (req : InternalForkHistoryBranchRequest) (now : Int)
    (insRes : SqlResult) (s : HistoryStoreState) :
    Except StoreError InternalForkHistoryBranchResponse × HistoryStoreState :=
  let forkB := req.forkBranchInfo
  let newAncestors := forkAncestors forkB req.forkNodeID
  let resp : InternalForkHistoryBranchResponse :=
    { newBranchInfo :=
      { treeID := forkB.treeID, branchID := req.newBranchID, ancestors := newAncestors } }
  let row : HistoryTreeRow :=
    { shardID := req.shardID, treeID := forkB.treeID, branchID := req.newBranchID,
      data := { ancestors := newAncestors, info := req.info, createdTimestamp := now } }
  match insRes with
  | .err m _ => (.error (.backend m), s)
  | .ok n =>
    if n ≠ 1 then
      (.error (.internalService "expected 1 row to be affected for tree table"), s)
    else (.ok resp, { s with treeRows := s.treeRows ++ [row] })

/-- `persistence.InternalGetHistoryTreeRequest`. -/
structure InternalGetHistoryTreeRequest where
  treeID : String
  shardID : Int
  deriving Repr, DecidableEq, Inhabited

/-- `persistence.InternalGetHistoryTreeResponse`. -/
structure InternalGetHistoryTreeResponse where
  branches : List HistoryBranch
  deriving Repr, DecidableEq, Inhabited

/-- Modelled from the spec: `SelectFromHistoryTree` (backend driver, not
under the given sources) returns all branch metadata rows of one tree on
one shard. -/
def selectFromHistoryTree (s : HistoryStoreState) (treeID : String) (shardID : Int) :
    List HistoryTreeRow :=
  s.treeRows.filter (fun r => r.treeID == treeID && r.shardID == shardID)

/-- `GetHistoryTree` (lines 522-557): all branches of one tree; with no rows
the empty response is returned without error.  The deterministic table model
has no I/O failures, so the operation always succeeds. -/
def getHistoryTree (req : InternalGetHistoryTreeRequest) (s : HistoryStoreState) :
    InternalGetHistoryTreeResponse :=
  let rows := selectFromHistoryTree s req.treeID req.shardID
  { branches := rows.map (fun row =>
      { treeID := req.treeID, branchID := row.branchID,
        ancestors := row.data.ancestors }) }

/-- `persistence.InternalDeleteHistoryBranchRequest`. -/
structure InternalDeleteHistoryBranchRequest where
  branchInfo : HistoryBranch
  shardID : Int
  deriving Repr, DecidableEq, Inhabited

/-- One imperative step of `GetBranchesMaxReferredNodeIDs`' map building:
`if curr, ok := m[k]; !ok || curr < v { m[k] = v }`, over an association
list. -/
def alistSetMax : List (String × Int) → String → Int → List (String × Int)
  | [], k, v => [(k, v)]
  | (k0, v0) :: rest, k, v =>
    if k0 = k then
      if v0 < v then (k0, v) :: rest else (k0, v0) :: rest
    else (k0, v0) :: alistSetMax rest k v

/-- Association-list lookup standing in for the Go map read. -/
def alistLookup : List (String × Int) → String → Option Int
  | [], _ => none
  | (k0, v) :: rest, k => if k0 = k then some v else alistLookup rest k

/-- `persistenceutils.GetBranchesMaxReferredNodeIDs`: for each branch id,
the maximum `endNodeID` with which any ancestor range of any of the given
branches references it. -/
def GetBranchesMaxReferredNodeIDs (branches : List HistoryBranch) :
    List (String × Int) :=
  branches.foldl
    (fun m b => b.ancestors.foldl (fun m2 br => alistSetMax m2 br.branchID br.endNodeID) m)
    []

/-- Modelled from the spec: `DeleteFromHistoryNode` (backend driver, not
under the given sources) deletes the node rows of one branch with
`nodeId >= minNodeID`; the store's batching loop (lines 438-452) repeats it
until fewer than a full batch is affected, so its net effect is removing
every matching row. -/
def deleteNodesFrom (nodes : List HistoryNodeRow) (treeID branchID : String)
    (shardID minNodeID : Int) : List HistoryNodeRow :=
  nodes.filter (fun r =>
    !(r.treeID == treeID && r.branchID == branchID && r.shardID == shardID &&
      decide (minNodeID ≤ r.nodeID)))

/-- The leaf-to-root range loop of `DeleteHistoryBranch` (lines 418-456),
already applied to the reversed range list: a range whose branch id is in
the referred map deletes only from the referred maximum and stops (`done`);
an unreferenced range deletes from its own `beginNodeID` and continues. -/
def deleteRanges (treeID : String) (shardID : Int) (referred : List (String × Int)) :
    List HistoryBranchRange → List HistoryNodeRow → List HistoryNodeRow
  | [], nodes => nodes
  | br :: rest, nodes =>
    match alistLookup referred br.branchID with
    | some m => deleteNodesFrom nodes treeID br.branchID shardID m
    | none =>
      deleteRanges treeID shardID referred rest
        (deleteNodesFrom nodes treeID br.branchID shardID br.beginNodeID)

/-- `DeleteHistoryBranch` (lines 379-459): drop the branch's tree row, then
walk its ancestor ranges plus its own range leaf-to-root, deleting node
rows not held back by the referred-node map computed from the tree's
branches.  The deterministic table model has no I/O failures, so the
operation always succeeds. -/
def deleteHistoryBranch (req : InternalDeleteHistoryBranchRequest)
    (s : HistoryStoreState) : Except StoreError Unit × HistoryStoreState :=
  let branch := req.branchInfo
  let treeID := branch.treeID
  let brsToDelete := branch.ancestors ++
    [{ branchID := branch.branchID, beginNodeID := GetBeginNodeID branch, endNodeID := 0 }]
  let branches := (getHistoryTree { treeID := treeID, shardID := req.shardID } s).branches
  let referred := GetBranchesMaxReferredNodeIDs branches
  let treeRows2 := s.treeRows.filter (fun r =>
    !(r.treeID == treeID && r.branchID == branch.branchID && r.shardID == req.shardID))
  let nodeRows2 := deleteRanges treeID req.shardID referred brsToDelete.reverse s.nodeRows
  (.ok (), { treeRows := treeRows2, nodeRows := nodeRows2 })

/-- The referred-node map as claim C1's sibling claim about deletion words
it: computed over the surviving branches only, i.e. the fetched branches
without the branch being deleted.  (The source instead passes all fetched
branches, including the one being deleted, to
`GetBranchesMaxReferredNodeIDs`.) -/
def survivorsReferredMap (branches : List HistoryBranch) (deleted : String) :
    List (String × Int) :=
  GetBranchesMaxReferredNodeIDs (branches.filter (fun b2 => b2.branchID != deleted))

/-- `DeleteHistoryBranch` as the claim describes it: identical to
`deleteHistoryBranch` except that the referred map ranges over surviving
branches only. -/
def deleteHistoryBranchClaimed (req : InternalDeleteHistoryBranchRequest)
    (s : HistoryStoreState) : HistoryStoreState :=
  let branch := req.branchInfo
  let treeID := branch.treeID
  let brsToDelete := branch.ancestors ++
    [{ branchID := branch.branchID, beginNodeID := GetBeginNodeID branch, endNodeID := 0 }]
  let branches := (getHistoryTree { treeID := treeID, shardID := req.shardID } s).branches
  let referred := survivorsReferredMap branches branch.branchID
  { treeRows := s.treeRows.filter (fun r2 =>
      !(r2.treeID == treeID && r2.branchID == branch.branchID && r2.shardID == req.shardID)),
    nodeRows := deleteRanges treeID req.shardID referred brsToDelete.reverse s.nodeRows }

/-- The tree-enumeration page token (`historyTreePageToken`). -/
structure HistoryTreePageToken where
  shardID : Int
  treeID : String
  branchID : String
  deriving Repr, DecidableEq, Inhabited

/-- `persistence.GetAllHistoryTreeBranchesRequest`; the gob-encoded token is
modelled as the decoded record (`gobSerialize`/`gobDeserialize`, not under
the given sources, round-trip it per the spec). -/
structure GetAllHistoryTreeBranchesRequest where
  nextPageToken : Option HistoryTreePageToken
  pageSize : Int
  deriving Repr, DecidableEq, Inhabited

/-- `persistence.HistoryBranchDetail`. -/
structure HistoryBranchDetail where
  treeID : String
  branchID : String
  forkTime : Int
  info : String
  deriving Repr, DecidableEq, Inhabited

/-- `persistence.GetAllHistoryTreeBranchesResponse`. -/
structure GetAllHistoryTreeBranchesResponse where
  branches : List HistoryBranchDetail
  nextPageToken : Option HistoryTreePageToken
  deriving Repr, DecidableEq, Inhabited

/-- Filter of the tree-enumeration select (`sqlplugin.HistoryTreeFilter`
as used by `GetAllHistoryTreeBranches`). -/
structure HistoryTreeFilter where
  shardID : Int
  treeID : String
  branchID : String
  pageSize : Int
  deriving Repr, DecidableEq, Inhabited

/-- `GetAllHistoryTreeBranches` (lines 462-519).  The backend select is
abstracted as the function `db` from filters to row pages (modelled from
the spec: it returns up to `pageSize` rows of shard `shardID` positioned
after `(treeID, branchID)`).  A next-page token is emitted only when the
page is full, and it carries the shard of the page's last row — the shard
id is never advanced past an exhausted shard. -/
def getAllHistoryTreeBranches (db : HistoryTreeFilter → List HistoryTreeRow)
    (req : GetAllHistoryTreeBranchesRequest) :
    Except StoreError GetAllHistoryTreeBranchesResponse :=
  let page :=
    match req.nextPageToken with
    | some t => t
    | none => { shardID := 0, treeID := "", branchID := "" }
  let filter : HistoryTreeFilter :=
    { shardID := page.shardID, treeID := page.treeID, branchID := page.branchID,
      pageSize := req.pageSize }
  let rows := db filter
  if rows = [] then .ok { branches := [], nextPageToken := none }
  else
    let branches := rows.map (fun row =>
      { treeID := row.treeID, branchID := row.branchID,
        forkTime := row.data.createdTimestamp, info := row.data.info })
    let nextTok :=
      if req.pageSize ≤ (rows.length : Int) then
        match rows.get? (req.pageSize - 1).toNat with
        | some lastRow =>
          some { shardID := lastRow.shardID, treeID := lastRow.treeID,
                 branchID := lastRow.branchID }
        | none => none
      else none
    .ok { branches := branches, nextPageToken := nextTok }

/-- A two-shard tree-enumeration backend: shard 0 holds one tree row and
shard 1 holds another; each shard answers only the query positioned at its
start.  Concrete failing input for the shard-advancing claim about
`GetAllHistoryTreeBranches`. -/
def dbTwoShards (f : HistoryTreeFilter) : List HistoryTreeRow :=
  if f.shardID == 0 && f.treeID == "" && f.branchID == "" then
    [⟨0, "T0", "B0", ⟨[], "s0", 0⟩⟩]
  else if f.shardID == 1 && f.treeID == "" && f.branchID == "" then
    [⟨1, "T1", "B1", ⟨[], "s1", 0⟩⟩]
  else []

/-- `ancestorsChainFromB s anc e = true` says the ancestor ranges `anc`
cover exactly the node interval `[s, e)` contiguously: the first range
begins at `s`, each subsequent range begins where the previous one ends,
and the last range ends at `e` (for `anc = []`, `s = e`). -/
def ancestorsChainFromB (s : Int) : List HistoryBranchRange → Int → Bool
  | [], e => s == e
  | br :: rest, e => (br.beginNodeID == s) && ancestorsChainFromB br.endNodeID rest e

example :
    readRows [⟨"t", "b", 1, 100, [1], "e", 0⟩, ⟨"t", "b", 3, 101, [2], "e", 0⟩] 0 0 =
      .ok ([⟨[1], "e"⟩, ⟨[2], "e"⟩], 3, 101) := by decide

example :
    readRows [⟨"t", "b", 3, 101, [2], "e", 0⟩, ⟨"t", "b", 3, 99, [9], "e", 0⟩] 0 0 =
      .ok ([⟨[2], "e"⟩], 3, 101) := by decide

example :
    readRows [⟨"t", "b", 3, 101, [2], "e", 0⟩, ⟨"t", "b", 3, 101, [9], "e", 0⟩] 0 0 =
      .error (.dataInconsistency "corrupted data, same nodeID must have smaller txnID") := by
  decide

/-- A successful `readRows` walk returns the blobs of a subsequence of
accepted rows whose node ids strictly increase past the initial watermark,
and — when the input page is sorted by `(nodeId asc, txnId desc)` — each
accepted row carries the highest `txnId` of its node id on the page. -/
lemma readRows_ok_spec (rows : List HistoryNodeRow) (ln lt : Int)
    (hist : List DataBlob) (ln' lt' : Int)
    (hsort : List.Pairwise rowLE rows)
    (h : readRows rows ln lt = .ok (hist, ln', lt')) :
    ∃ acc : List HistoryNodeRow,
      hist = acc.map rowBlob ∧
      List.Pairwise (fun a b => a.nodeID < b.nodeID) acc ∧
      (∀ r ∈ acc, ln < r.nodeID) ∧
      (∀ r ∈ acc, r ∈ rows) ∧
      (∀ r ∈ acc, ∀ s ∈ rows, s.nodeID = r.nodeID → s.txnID ≤ r.txnID) := by
  induction rows generalizing ln lt hist ln' lt' with
  | nil =>
    simp only [readRows, Except.ok.injEq, Prod.mk.injEq] at h
    exact ⟨[], by simp [← h.1]⟩
  | cons row rest ih =>
    rw [List.pairwise_cons] at hsort
    obtain ⟨hhead, htail⟩ := hsort
    rw [readRows] at h
    by_cases h1 : row.txnID < lt
    · rw [if_pos h1] at h
      by_cases h2 : row.nodeID < ln
      · rw [if_pos h2] at h; exact absurd h (by simp)
      · rw [if_neg h2] at h
        by_cases h3 : ln < row.nodeID
        · rw [if_pos h3] at h
          obtain ⟨acc, hh, hp, hgt, hmem, hmax⟩ := ih _ _ _ _ _ htail h
          refine ⟨acc, hh, hp, fun r hr => lt_trans h3 (hgt r hr),
            fun r hr => List.mem_cons_of_mem _ (hmem r hr), ?_⟩
          intro r hr s hs hnode
          rcases List.mem_cons.mp hs with hseq | hs
          · exfalso
            have h5 := hgt r hr
            rw [hseq] at hnode
            omega
          · exact hmax r hr s hs hnode
        · rw [if_neg h3] at h
          have heq : row.nodeID = ln := le_antisymm (not_lt.mp h3) (not_lt.mp h2)
          obtain ⟨acc, hh, hp, hgt, hmem, hmax⟩ := ih _ _ _ _ _ htail h
          refine ⟨acc, hh, hp, hgt,
            fun r hr => List.mem_cons_of_mem _ (hmem r hr), ?_⟩
          intro r hr s hs hnode
          rcases List.mem_cons.mp hs with hseq | hs
          · exfalso
            have h5 := hgt r hr
            rw [hseq] at hnode
            omega
          · exact hmax r hr s hs hnode
    · rw [if_neg h1] at h
      by_cases h2 : row.nodeID < ln
      · rw [if_pos h2] at h; exact absurd h (by simp)
      · rw [if_neg h2] at h
        by_cases h3 : row.nodeID = ln
        · rw [if_pos h3] at h; exact absurd h (by simp)
        · rw [if_neg h3] at h
          have hlt : ln < row.nodeID := lt_of_le_of_ne (not_lt.mp h2) (Ne.symm h3)
          cases hrec : readRows rest row.nodeID row.txnID with
          | error e => rw [hrec] at h; exact absurd h (by simp)
          | ok p =>
            obtain ⟨hist1, ln1, lt1⟩ := p
            rw [hrec] at h
            simp only [Except.ok.injEq, Prod.mk.injEq] at h
            obtain ⟨hh, _, _⟩ := h
            obtain ⟨acc1, hh1, hp1, hgt1, hmem1, hmax1⟩ := ih _ _ _ _ _ htail hrec
            refine ⟨row :: acc1, ?_, ?_, ?_, ?_, ?_⟩
            · rw [← hh, hh1]; simp
            · exact List.Pairwise.cons (fun b hb => hgt1 b hb) hp1
            · intro r hr
              rcases List.mem_cons.mp hr with rfl | hr
              · exact hlt
              · exact lt_trans hlt (hgt1 r hr)
            · intro r hr
              rcases List.mem_cons.mp hr with rfl | hr
              · exact List.mem_cons_self _ _
              · exact List.mem_cons_of_mem _ (hmem1 r hr)
            · intro r hr s hs hnode
              rcases List.mem_cons.mp hr with hreq | hr2
              · rcases List.mem_cons.mp hs with hseq | hs2
                · rw [hseq, hreq]
                · rcases hhead s hs2 with hlt2 | ⟨_, hle2⟩
                  · exfalso
                    rw [hreq] at hnode
                    omega
                  · rw [hreq]
                    exact hle2
              · rcases List.mem_cons.mp hs with hseq | hs2
                · exfalso
                  have h5 := hgt1 r hr2
                  rw [hseq] at hnode
                  omega
                · exact hmax1 r hr2 s hs2 hnode

/-- C4: a request whose `nodeId` is strictly below `beginNodeId(branch)` —
the last ancestor's `endNodeId`, or `1` without ancestors — fails with
`InvalidRequest("cannot append to ancestors' nodes")` and writes nothing,
and every request with `nodeId >= beginNodeId(branch)` passes this
precondition check. -/
theorem C4_append_precondition
    (req : InternalAppendHistoryNodesRequest) (now : Int)
    (nodeRes treeRes : SqlResult) (s : HistoryStoreState) :
    (req.nodeID < GetBeginNodeID req.branchInfo →
      appendHistoryNodes req now nodeRes treeRes s =
        (.error (.invalidRequest "cannot append to ancestors' nodes"), s)) ∧
    (GetBeginNodeID req.branchInfo ≤ req.nodeID →
      (appendHistoryNodes req now nodeRes treeRes s).1 ≠
        .error (.invalidRequest "cannot append to ancestors' nodes")) := by
  constructor
  · intro hlt
    rw [appendHistoryNodes.eq_def, if_pos hlt]
  · intro hge
    rw [appendHistoryNodes.eq_def, if_neg (not_lt.mpr hge)]
    cases hb : req.isNewBranch with
    | true =>
      simp only [hb, if_true]
      cases nodeRes with
      | err m d => simp [txExecute]
      | ok n =>
        cases treeRes with
        | err m2 d2 =>
          by_cases hn1 : n = 1 <;> simp [txExecute, hn1]
        | ok k =>
          by_cases hn1 : n = 1 <;> by_cases hk1 : k = 1 <;>
            simp [txExecute, hn1, hk1]
    | false =>
      simp only [hb, Bool.false_eq_true, if_false]
      cases nodeRes with
      | err m d => cases d <;> simp
      | ok n => simp

/-- Concrete instantiation of `C4_append_precondition`: scenario S6 of the
spec, appending `nodeId = 5` to a branch forked at `forkNodeId = 6`. -/
theorem C4_append_precondition_witness :
    appendHistoryNodes
      { isNewBranch := false, info := "", branchInfo := ⟨"T", "B2", [⟨"B1", 1, 6⟩]⟩,
        nodeID := 5, events := ⟨[5], "e"⟩, transactionID := 1, shardID := 0 }
      0 (.ok 1) (.ok 1) ⟨[], []⟩ =
      (.error (.invalidRequest "cannot append to ancestors' nodes"), ⟨[], []⟩) :=
  (C4_append_precondition _ 0 (.ok 1) (.ok 1) _).1 (by decide)

/-- A transaction that fails leaves the state unchanged (rollback). -/
lemma txExecute_error_unchanged (s : HistoryStoreState)
    (body : HistoryStoreState → Except StoreError HistoryStoreState)
    (e : StoreError) (s' : HistoryStoreState)
    (h : txExecute s body = (.error e, s')) : s' = s := by
  unfold txExecute at h
  cases hb : body s with
  | error e2 =>
    rw [hb] at h
    simp only [Prod.mk.injEq] at h
    exact h.2.symm
  | ok s2 =>
    rw [hb] at h
    simp at h

/-- A transaction that succeeds commits exactly the body's writes. -/
lemma txExecute_ok_body (s : HistoryStoreState)
    (body : HistoryStoreState → Except StoreError HistoryStoreState)
    (s' : HistoryStoreState)
    (h : txExecute s body = (.ok (), s')) : body s = .ok s' := by
  unfold txExecute at h
  cases hb : body s with
  | error e2 =>
    rw [hb] at h
    simp at h
  | ok s2 =>
    rw [hb] at h
    simp only [Prod.mk.injEq] at h
    rw [h.2]

/-- C5: with `IsNewBranch=true` the tree row and node row are written
atomically in one transaction — after the call either both rows are
persisted (success) or neither (error), and the transaction fails whenever
either insert affects a number of rows other than 1; with
`IsNewBranch=false` only the node row is written, and a backend
duplicate-key error is surfaced as `ConditionFailed`. -/
theorem C5_append_tree_node_atomic
    (req : InternalAppendHistoryNodesRequest) (now : Int)
    (nodeRes treeRes : SqlResult) (s : HistoryStoreState)
    (hpre : GetBeginNodeID req.branchInfo ≤ req.nodeID) :
    (req.isNewBranch = true →
      ∀ s', appendHistoryNodes req now nodeRes treeRes s = (.ok (), s') →
        s'.nodeRows = s.nodeRows ++ [appendNodeRow req] ∧
        s'.treeRows = s.treeRows ++ [appendTreeRow req now]) ∧
    (∀ e s', appendHistoryNodes req now nodeRes treeRes s = (.error e, s') →
      s' = s) ∧
    (req.isNewBranch = true → ∀ n, nodeRes = .ok n → n ≠ 1 →
      ∃ e, (appendHistoryNodes req now nodeRes treeRes s).1 = .error e) ∧
    (req.isNewBranch = true → ∀ k, treeRes = .ok k → k ≠ 1 →
      ∃ e, (appendHistoryNodes req now nodeRes treeRes s).1 = .error e) ∧
    (req.isNewBranch = false →
      ∀ s', appendHistoryNodes req now nodeRes treeRes s = (.ok (), s') →
        s'.treeRows = s.treeRows ∧
        s'.nodeRows = s.nodeRows ++ [appendNodeRow req]) ∧
    (req.isNewBranch = false → ∀ m, nodeRes = .err m true →
      (appendHistoryNodes req now nodeRes treeRes s).1 =
        .error (.conditionFailed ("AppendHistoryNodes: row already exist: " ++ m))) := by
  have hn : ¬ req.nodeID < GetBeginNodeID req.branchInfo := not_lt.mpr hpre
  refine ⟨?_, ?_, ?_, ?_, ?_, ?_⟩
  · intro hb s' hok
    rw [appendHistoryNodes.eq_def, if_neg hn] at hok
    simp only [hb, if_true] at hok
    have hbody := txExecute_ok_body _ _ _ hok
    cases nodeRes with
    | err m d => simp at hbody
    | ok n =>
      by_cases hn1 : n = 1
      · cases treeRes with
        | err m2 d2 => simp [hn1] at hbody
        | ok k =>
          by_cases hk1 : k = 1
          · simp [hn1, hk1] at hbody
            rw [← hbody]
            exact ⟨rfl, rfl⟩
          · simp [hn1, hk1] at hbody
      · simp [hn1] at hbody
  · intro e s' herr
    rw [appendHistoryNodes.eq_def, if_neg hn] at herr
    cases hb : req.isNewBranch with
    | true =>
      simp only [hb, if_true] at herr
      exact txExecute_error_unchanged _ _ _ _ herr
    | false =>
      simp only [hb, Bool.false_eq_true, if_false] at herr
      cases nodeRes with
      | err m d =>
        cases d <;> simp at herr <;> exact herr.2.symm
      | ok n => simp at herr
  · intro hb n hres hn1
    rw [appendHistoryNodes.eq_def, if_neg hn]
    simp only [hb, if_true, hres]
    exact ⟨.internalService "expected 1 row to be affected for node table",
      by simp [txExecute, hn1]⟩
  · intro hb k hres hk1
    rw [appendHistoryNodes.eq_def, if_neg hn]
    simp only [hb, if_true, hres]
    cases nodeRes with
    | err m d => exact ⟨.backend m, by simp [txExecute]⟩
    | ok n =>
      by_cases hn1 : n = 1
      · exact ⟨.internalService "expected 1 row to be affected for tree table",
          by simp [txExecute, hn1, hk1]⟩
      · exact ⟨.internalService "expected 1 row to be affected for node table",
          by simp [txExecute, hn1]⟩
  · intro hb s' hok
    rw [appendHistoryNodes.eq_def, if_neg hn] at hok
    simp only [hb, Bool.false_eq_true, if_false] at hok
    cases nodeRes with
    | err m d => cases d <;> simp at hok
    | ok n =>
      simp only [Prod.mk.injEq] at hok
      rw [← hok.2]
      exact ⟨rfl, rfl⟩
  · intro hb m hres
    rw [appendHistoryNodes.eq_def, if_neg hn]
    simp only [hb, Bool.false_eq_true, if_false, hres]
    simp

/-- Concrete instantiation of `C5_append_tree_node_atomic`: a successful
new-branch append persists both the node row and the tree row. -/
theorem C5_append_tree_node_atomic_witness :
    (appendHistoryNodes
        { isNewBranch := true, info := "i", branchInfo := ⟨"T", "B1", []⟩,
          nodeID := 1, events := ⟨[1], "e"⟩, transactionID := 7, shardID := 0 }
        9 (.ok 1) (.ok 1) ⟨[], []⟩).2.nodeRows =
      [] ++ [appendNodeRow
        { isNewBranch := true, info := "i", branchInfo := ⟨"T", "B1", []⟩,
          nodeID := 1, events := ⟨[1], "e"⟩, transactionID := 7, shardID := 0 }] :=
  ((C5_append_tree_node_atomic
      { isNewBranch := true, info := "i", branchInfo := ⟨"T", "B1", []⟩,
        nodeID := 1, events := ⟨[1], "e"⟩, transactionID := 7, shardID := 0 }
      9 (.ok 1) (.ok 1) ⟨[], []⟩ (by decide)).1 rfl _ (by decide)).1

/-- C1: `ReadHistoryBranch`'s row walk, with the watermark
`(lastNodeId, lastTxnId)` initialized from the request, skips a stale row
(`txnId < lastTxnId`) — failing with `Corruption("nodeID cannot decrease")`
if its `nodeId` decreases and advancing `lastNodeId` when it grows — and,
for a non-stale row, fails with `Corruption("nodeID cannot decrease")` on a
smaller `nodeId`, fails with `Corruption("same nodeID must have smaller
txnID")` on an equal `nodeId`, and appends the blob while setting the
watermark on a larger `nodeId`; hence on a page sorted by `(nodeId asc,
txnId desc)` each distinct `nodeId` appears at most once in the output, in
ascending order, carrying the blob of the highest `txnId`. -/
theorem C1_read_history_branch_walk
    (rows : List HistoryNodeRow) (ln lt : Int)
    (hsort : List.Pairwise rowLE rows) :
    (∀ (row : HistoryNodeRow) (rest : List HistoryNodeRow) (ln0 lt0 : Int),
        row.txnID < lt0 → row.nodeID < ln0 →
        readRows (row :: rest) ln0 lt0 =
          .error (.dataInconsistency "corrupted data, nodeID cannot decrease")) ∧
    (∀ (row : HistoryNodeRow) (rest : List HistoryNodeRow) (ln0 lt0 : Int),
        row.txnID < lt0 → ln0 < row.nodeID →
        readRows (row :: rest) ln0 lt0 = readRows rest row.nodeID lt0) ∧
    (∀ (row : HistoryNodeRow) (rest : List HistoryNodeRow) (ln0 lt0 : Int),
        row.txnID < lt0 → row.nodeID = ln0 →
        readRows (row :: rest) ln0 lt0 = readRows rest ln0 lt0) ∧
    (∀ (row : HistoryNodeRow) (rest : List HistoryNodeRow) (ln0 lt0 : Int),
        ¬ row.txnID < lt0 → row.nodeID < ln0 →
        readRows (row :: rest) ln0 lt0 =
          .error (.dataInconsistency "corrupted data, nodeID cannot decrease")) ∧
    (∀ (row : HistoryNodeRow) (rest : List HistoryNodeRow) (ln0 lt0 : Int),
        ¬ row.txnID < lt0 → row.nodeID = ln0 →
        readRows (row :: rest) ln0 lt0 =
          .error (.dataInconsistency "corrupted data, same nodeID must have smaller txnID")) ∧
    (∀ (row : HistoryNodeRow) (rest : List HistoryNodeRow) (ln0 lt0 : Int),
        ¬ row.txnID < lt0 → ln0 < row.nodeID →
        readRows (row :: rest) ln0 lt0 =
          (readRows rest row.nodeID row.txnID).map
            (fun p => (rowBlob row :: p.1, p.2))) ∧
    (∀ (hist : List DataBlob) (ln' lt' : Int),
        readRows rows ln lt = .ok (hist, ln', lt') →
        ∃ acc : List HistoryNodeRow,
          hist = acc.map rowBlob ∧
          List.Pairwise (fun a b => a.nodeID < b.nodeID) acc ∧
          (∀ r ∈ acc, r ∈ rows) ∧
          (∀ r ∈ acc, ∀ s ∈ rows, s.nodeID = r.nodeID → s.txnID ≤ r.txnID)) := by
  refine ⟨?_, ?_, ?_, ?_, ?_, ?_, ?_⟩
  · intro row rest ln0 lt0 hstale hdec
    rw [readRows, if_pos hstale, if_pos hdec]
  · intro row rest ln0 lt0 hstale hadv
    rw [readRows, if_pos hstale, if_neg (by omega), if_pos hadv]
  · intro row rest ln0 lt0 hstale heq
    rw [readRows, if_pos hstale, if_neg (by omega), if_neg (by omega)]
  · intro row rest ln0 lt0 hfresh hdec
    rw [readRows, if_neg hfresh, if_pos hdec]
  · intro row rest ln0 lt0 hfresh heq
    rw [readRows, if_neg hfresh, if_neg (by omega), if_pos heq]
  · intro row rest ln0 lt0 hfresh hadv
    rw [readRows, if_neg hfresh, if_neg (by omega), if_neg (by omega)]
    cases readRows rest row.nodeID row.txnID with
    | error e => rfl
    | ok p => rfl
  · intro hist ln' lt' h
    obtain ⟨acc, hh, hp, _, hmem, hmax⟩ := readRows_ok_spec rows ln lt hist ln' lt' hsort h
    exact ⟨acc, hh, hp, hmem, hmax⟩

/-- Concrete instantiation of `C1_read_history_branch_walk` on a sorted
two-row page read from watermark `(0, 0)`. -/
theorem C1_read_history_branch_walk_witness :
    ∃ acc : List HistoryNodeRow,
      ([⟨[1], "e"⟩, ⟨[2], "e"⟩] : List DataBlob) = acc.map rowBlob ∧
      List.Pairwise (fun a b => a.nodeID < b.nodeID) acc ∧
      (∀ r ∈ acc,
        r ∈ [(⟨"t", "b", 1, 100, [1], "e", 0⟩ : HistoryNodeRow), ⟨"t", "b", 3, 101, [2], "e", 0⟩]) ∧
      (∀ r ∈ acc,
        ∀ s ∈ [(⟨"t", "b", 1, 100, [1], "e", 0⟩ : HistoryNodeRow), ⟨"t", "b", 3, 101, [2], "e", 0⟩],
          s.nodeID = r.nodeID → s.txnID ≤ r.txnID) :=
  (C1_read_history_branch_walk
      [⟨"t", "b", 1, 100, [1], "e", 0⟩, ⟨"t", "b", 3, 101, [2], "e", 0⟩] 0 0
      (by decide)).2.2.2.2.2.2 [⟨[1], "e"⟩, ⟨[2], "e"⟩] 3 101 (by decide)

/-- `forkCopyAncestors` is the claim's walk: the copied prefix of ancestors
ending strictly before the fork point, followed by the first ancestor
reaching it with its `endNodeID` truncated to the fork point. -/
lemma forkCopy_eq_takeDrop (fork : Int) :
    ∀ anc : List HistoryBranchRange,
      forkCopyAncestors fork anc =
        anc.takeWhile (fun br => decide (br.endNodeID < fork)) ++
          (match anc.dropWhile (fun br => decide (br.endNodeID < fork)) with
           | [] => []
           | br :: _ =>
             [{ branchID := br.branchID, beginNodeID := br.beginNodeID,
                endNodeID := fork }])
  | [] => by simp [forkCopyAncestors]
  | br :: rest => by
    rw [forkCopyAncestors]
    by_cases h : fork ≤ br.endNodeID
    · rw [if_pos h]
      have hd : decide (br.endNodeID < fork) = false := by
        simp only [decide_eq_false_iff_not]
        omega
      simp [List.takeWhile_cons, List.dropWhile_cons, hd]
    · rw [if_neg h]
      have hd : decide (br.endNodeID < fork) = true := by
        simp only [decide_eq_true_eq]
        omega
      simp [List.takeWhile_cons, List.dropWhile_cons, hd,
        forkCopy_eq_takeDrop fork rest]

/-- Appending the forking branch's own range `[e, f)` to a chain covering
`[s, e)` yields a chain covering `[s, f)`. -/
lemma chainB_append_singleton (b : String) (f : Int) :
    ∀ (anc : List HistoryBranchRange) (s e : Int),
      ancestorsChainFromB s anc e = true →
      ancestorsChainFromB s (anc ++ [⟨b, e, f⟩]) f = true
  | [], s, e, h => by
    simp [ancestorsChainFromB] at h ⊢
    omega
  | br :: rest, s, e, h => by
    simp [ancestorsChainFromB] at h ⊢
    exact ⟨h.1, chainB_append_singleton b f rest br.endNodeID e h.2⟩

/-- Truncating a chain covering `[s, e)` at a fork point inside `(s, e]`
yields a chain covering `[s, fork)`. -/
lemma forkCopy_chain (fork : Int) :
    ∀ (anc : List HistoryBranchRange) (s e : Int),
      ancestorsChainFromB s anc e = true → s ≤ fork → fork ≤ e →
      ancestorsChainFromB s (forkCopyAncestors fork anc) fork = true
  | [], s, e, h, hs, he => by
    simp [ancestorsChainFromB, forkCopyAncestors] at h ⊢
    omega
  | br :: rest, s, e, h, hs, he => by
    rw [forkCopyAncestors]
    simp only [ancestorsChainFromB, Bool.and_eq_true, beq_iff_eq] at h
    by_cases hbr : fork ≤ br.endNodeID
    · rw [if_pos hbr]
      simp [ancestorsChainFromB]
      exact h.1
    · rw [if_neg hbr]
      simp only [ancestorsChainFromB, Bool.and_eq_true, beq_iff_eq]
      exact ⟨h.1, forkCopy_chain fork rest br.endNodeID e h.2 (by omega) he⟩

/-- A chain covering `[s, e)` ends at `e`: its last range's `endNodeID` is
`e` (or it is empty and `s = e`). -/
lemma chainB_last : ∀ (anc : List HistoryBranchRange) (s e : Int),
    ancestorsChainFromB s anc e = true →
    (anc.getLast?.elim s (fun br => br.endNodeID)) = e
  | [], s, e, h => by simpa [ancestorsChainFromB] using h
  | br :: rest, s, e, h => by
    simp only [ancestorsChainFromB, Bool.and_eq_true, beq_iff_eq] at h
    cases rest with
    | nil =>
      simp only [ancestorsChainFromB, beq_iff_eq] at h
      simpa [List.getLast?] using h.2
    | cons br2 rest2 =>
      have hrec := chainB_last (br2 :: rest2) br.endNodeID e h.2
      simpa [List.getLast?_cons_cons] using hrec

/-- A branch whose ancestors form a chain covering `[1, e)` has
`beginNodeId = e`. -/
lemma beginNodeID_eq_of_chain (t b : String) (anc : List HistoryBranchRange)
    (e : Int) (h : ancestorsChainFromB 1 anc e = true) :
    GetBeginNodeID ⟨t, b, anc⟩ = e := by
  have hl := chainB_last anc 1 e h
  unfold GetBeginNodeID
  cases hg : anc.getLast? with
  | none =>
    rw [hg] at hl
    simpa using hl
  | some br =>
    rw [hg] at hl
    simpa using hl

/-- The ancestor list `ForkHistoryBranch` derives from a source covering
`[1, beginNodeId)` covers `[1, forkNodeId)`. -/
lemma forkAncestors_chain (fb : HistoryBranch) (fork : Int)
    (hchain : ancestorsChainFromB 1 fb.ancestors (GetBeginNodeID fb) = true)
    (hvalid : 1 ≤ fork) :
    ancestorsChainFromB 1 (forkAncestors fb fork) fork = true := by
  simp only [forkAncestors]
  by_cases hc : fork ≤ GetBeginNodeID fb
  · rw [if_pos hc]
    exact forkCopy_chain fork fb.ancestors 1 (GetBeginNodeID fb) hchain hvalid hc
  · rw [if_neg hc]
    exact chainB_append_singleton fb.branchID fork fb.ancestors 1
      (GetBeginNodeID fb) hchain

/-- C2: with `begin = beginNodeId(forkBranch)`, if `begin >= forkNodeId`
the new branch's ancestors are the source's ancestors with `endNodeId <
forkNodeId` copied in order, then the first ancestor with `endNodeId >=
forkNodeId` copied with `endNodeId` replaced by `forkNodeId` and the walk
stopped; otherwise they are all of the source's ancestors followed by
`{branchId: source, beginNodeId: begin, endNodeId: forkNodeId}`.  Exactly
one tree row carrying the derived list is inserted and the returned
`NewBranchInfo` keeps the `treeId`, uses the requested `newBranchId`, and
carries the derived ancestors. -/
theorem C2_fork_derived_ancestors
    (req : InternalForkHistoryBranchRequest) (now : Int) (s : HistoryStoreState) :
    (req.forkNodeID ≤ GetBeginNodeID req.forkBranchInfo →
      forkAncestors req.forkBranchInfo req.forkNodeID =
        req.forkBranchInfo.ancestors.takeWhile
            (fun br => decide (br.endNodeID < req.forkNodeID)) ++
          (match req.forkBranchInfo.ancestors.dropWhile
              (fun br => decide (br.endNodeID < req.forkNodeID)) with
           | [] => []
           | br :: _ =>
             [{ branchID := br.branchID, beginNodeID := br.beginNodeID,
                endNodeID := req.forkNodeID }])) ∧
    (GetBeginNodeID req.forkBranchInfo < req.forkNodeID →
      forkAncestors req.forkBranchInfo req.forkNodeID =
        req.forkBranchInfo.ancestors ++
          [{ branchID := req.forkBranchInfo.branchID,
             beginNodeID := GetBeginNodeID req.forkBranchInfo,
             endNodeID := req.forkNodeID }]) ∧
    forkHistoryBranch req now (.ok 1) s =
      (.ok { newBranchInfo :=
        { treeID := req.forkBranchInfo.treeID, branchID := req.newBranchID,
          ancestors := forkAncestors req.forkBranchInfo req.forkNodeID } },
       { s with treeRows := s.treeRows ++
          [{ shardID := req.shardID, treeID := req.forkBranchInfo.treeID,
             branchID := req.newBranchID,
             data := { ancestors := forkAncestors req.forkBranchInfo req.forkNodeID,
                       info := req.info, createdTimestamp := now } }] }) := by
  refine ⟨?_, ?_, ?_⟩
  · intro hc
    simp only [forkAncestors, if_pos hc]
    exact forkCopy_eq_takeDrop req.forkNodeID req.forkBranchInfo.ancestors
  · intro hc
    simp only [forkAncestors, if_neg (not_le.mpr hc)]
  · rfl

/-- Concrete instantiation of `C2_fork_derived_ancestors`: scenario S4 of
the spec — forking B2 (ancestor `B1@[1,6)`, native from 6) at node 8. -/
theorem C2_fork_derived_ancestors_witness :
    forkAncestors ⟨"T", "B2", [⟨"B1", 1, 6⟩]⟩ 8 =
      [⟨"B1", 1, 6⟩] ++ [⟨"B2", 6, 8⟩] :=
  (C2_fork_derived_ancestors ⟨⟨"T", "B2", [⟨"B1", 1, 6⟩]⟩, 8, "B3", "", 0⟩
      0 ⟨[], []⟩).2.1 (by decide)

/-- C6: for a source branch whose ancestors cover `[1, beginNodeId)`
contiguously and any valid fork point (`forkNodeId >= 1`), the branch
returned by `ForkHistoryBranch` has ancestors covering exactly
`[1, forkNodeId)` contiguously, and its own `beginNodeId` is `forkNodeId`,
so its future native appends continue contiguously from node 1. -/
theorem C6_fork_preserves_contiguity
    (req : InternalForkHistoryBranchRequest) (now : Int) (s : HistoryStoreState)
    (hchain : ancestorsChainFromB 1 req.forkBranchInfo.ancestors
        (GetBeginNodeID req.forkBranchInfo) = true)
    (hvalid : 1 ≤ req.forkNodeID) :
    ∀ resp s2, forkHistoryBranch req now (.ok 1) s = (.ok resp, s2) →
      ancestorsChainFromB 1 resp.newBranchInfo.ancestors req.forkNodeID = true ∧
      GetBeginNodeID resp.newBranchInfo = req.forkNodeID := by
  intro resp s2 h
  have hfork : forkHistoryBranch req now (.ok 1) s =
      (.ok { newBranchInfo :=
        { treeID := req.forkBranchInfo.treeID, branchID := req.newBranchID,
          ancestors := forkAncestors req.forkBranchInfo req.forkNodeID } },
       { s with treeRows := s.treeRows ++
          [{ shardID := req.shardID, treeID := req.forkBranchInfo.treeID,
             branchID := req.newBranchID,
             data := { ancestors := forkAncestors req.forkBranchInfo req.forkNodeID,
                       info := req.info, createdTimestamp := now } }] }) := rfl
  rw [hfork] at h
  injection h with h1 h2
  injection h1 with h1
  subst h1
  constructor
  · exact forkAncestors_chain req.forkBranchInfo req.forkNodeID hchain hvalid
  · exact beginNodeID_eq_of_chain req.forkBranchInfo.treeID req.newBranchID
      (forkAncestors req.forkBranchInfo req.forkNodeID) req.forkNodeID
      (forkAncestors_chain req.forkBranchInfo req.forkNodeID hchain hvalid)

/-- Concrete instantiation of `C6_fork_preserves_contiguity`: forking B2
(covering `[1,6)` by B1, native from 6) at node 8 covers `[1,8)`. -/
theorem C6_fork_preserves_contiguity_witness :
    ancestorsChainFromB 1 [⟨"B1", 1, 6⟩, ⟨"B2", 6, 8⟩] 8 = true ∧
    GetBeginNodeID ⟨"T", "B3", [⟨"B1", 1, 6⟩, ⟨"B2", 6, 8⟩]⟩ = 8 :=
  C6_fork_preserves_contiguity ⟨⟨"T", "B2", [⟨"B1", 1, 6⟩]⟩, 8, "B3", "", 0⟩
    0 ⟨[], []⟩ (by decide) (by decide)
    { newBranchInfo := ⟨"T", "B3", [⟨"B1", 1, 6⟩, ⟨"B2", 6, 8⟩]⟩ } _ rfl

/-- `alistSetMax m k v` maps `k` to at least `v`. -/
lemma alistSetMax_lookup_self : ∀ (m : List (String × Int)) (k : String) (v : Int),
    ∃ M, alistLookup (alistSetMax m k v) k = some M ∧ v ≤ M
  | [], k, v => ⟨v, by simp [alistSetMax, alistLookup], le_refl v⟩
  | (k0, v0) :: rest, k, v => by
    by_cases hk : k0 = k
    · by_cases hv : v0 < v
      · exact ⟨v, by simp [alistSetMax, hk, hv, alistLookup], le_refl v⟩
      · exact ⟨v0, by simp [alistSetMax, hk, hv, alistLookup], by omega⟩
    · obtain ⟨M, hM, hle⟩ := alistSetMax_lookup_self rest k v
      exact ⟨M, by simp [alistSetMax, hk, alistLookup, hM], hle⟩

/-- `alistSetMax` never lowers an existing entry. -/
lemma alistSetMax_lookup_mono :
    ∀ (m : List (String × Int)) (k k2 : String) (v M : Int),
      alistLookup m k = some M →
      ∃ M2, alistLookup (alistSetMax m k2 v) k = some M2 ∧ M ≤ M2
  | [], k, k2, v, M, h => by simp [alistLookup] at h
  | (k0, v0) :: rest, k, k2, v, M, h => by
    rw [alistLookup] at h
    rw [alistSetMax]
    by_cases hk2 : k0 = k2
    · rw [if_pos hk2]
      by_cases hv : v0 < v
      · rw [if_pos hv]
        by_cases hk0 : k0 = k
        · rw [if_pos hk0] at h
          refine ⟨v, ?_, by injection h with h2; omega⟩
          rw [alistLookup, if_pos hk0]
        · rw [if_neg hk0] at h
          refine ⟨M, ?_, le_refl M⟩
          rw [alistLookup, if_neg hk0]
          exact h
      · rw [if_neg hv]
        by_cases hk0 : k0 = k
        · rw [if_pos hk0] at h
          refine ⟨v0, ?_, by injection h with h2; omega⟩
          rw [alistLookup, if_pos hk0]
        · rw [if_neg hk0] at h
          refine ⟨M, ?_, le_refl M⟩
          rw [alistLookup, if_neg hk0]
          exact h
    · rw [if_neg hk2]
      by_cases hk0 : k0 = k
      · rw [if_pos hk0] at h
        refine ⟨v0, ?_, by injection h with h2; omega⟩
        rw [alistLookup, if_pos hk0]
      · rw [if_neg hk0] at h
        obtain ⟨M2, hM2, hle⟩ := alistSetMax_lookup_mono rest k k2 v M h
        refine ⟨M2, ?_, hle⟩
        rw [alistLookup, if_neg hk0]
        exact hM2

/-- Folding one branch's ancestor ranges never lowers an entry. -/
lemma foldl_setMax_mono (ancs : List HistoryBranchRange) :
    ∀ (m : List (String × Int)) (k : String) (M : Int),
      alistLookup m k = some M →
      ∃ M2, alistLookup
          (ancs.foldl (fun m2 br => alistSetMax m2 br.branchID br.endNodeID) m) k =
        some M2 ∧ M ≤ M2 := by
  induction ancs with
  | nil => intro m k M h; exact ⟨M, h, le_refl M⟩
  | cons br rest ih =>
    intro m k M h
    obtain ⟨M1, hM1, hle1⟩ := alistSetMax_lookup_mono m k br.branchID br.endNodeID M h
    obtain ⟨M2, hM2, hle2⟩ := ih _ k M1 hM1
    exact ⟨M2, by simpa using hM2, by omega⟩

/-- After folding a branch's ancestor ranges, every range's branch id is
mapped to at least that range's `endNodeID`. -/
lemma foldl_setMax_covers (ancs : List HistoryBranchRange) :
    ∀ (m : List (String × Int)) (br : HistoryBranchRange), br ∈ ancs →
      ∃ M, alistLookup
          (ancs.foldl (fun m2 b2 => alistSetMax m2 b2.branchID b2.endNodeID) m)
          br.branchID = some M ∧ br.endNodeID ≤ M := by
  induction ancs with
  | nil => intro m br h; simp at h
  | cons b0 rest ih =>
    intro m br hmem
    rcases List.mem_cons.mp hmem with heq | hmem2
    · obtain ⟨M0, hM0, hle0⟩ := alistSetMax_lookup_self m b0.branchID b0.endNodeID
      obtain ⟨M, hM, hle⟩ := foldl_setMax_mono rest
        (alistSetMax m b0.branchID b0.endNodeID) b0.branchID M0 hM0
      refine ⟨M, ?_, ?_⟩
      · rw [heq]
        simpa using hM
      · rw [heq]
        omega
    · obtain ⟨M, hM, hle⟩ := ih (alistSetMax m b0.branchID b0.endNodeID) br hmem2
      exact ⟨M, by simpa using hM, hle⟩

/-- Folding further branches never lowers an entry. -/
lemma branchesFold_mono (branches : List HistoryBranch) :
    ∀ (m : List (String × Int)) (k : String) (M : Int),
      alistLookup m k = some M →
      ∃ M2, alistLookup
        (branches.foldl
          (fun m2 b2 => b2.ancestors.foldl
            (fun m3 br2 => alistSetMax m3 br2.branchID br2.endNodeID) m2) m)
        k = some M2 ∧ M ≤ M2 := by
  induction branches with
  | nil => intro m k M h; exact ⟨M, h, le_refl M⟩
  | cons b2 rest ih =>
    intro m k M h
    obtain ⟨M1, h1, hle1⟩ := foldl_setMax_mono b2.ancestors m k M h
    obtain ⟨M2, h2, hle2⟩ := ih _ k M1 h1
    exact ⟨M2, by simpa using h2, by omega⟩

/-- The referred map covers every ancestor reference of every branch. -/
lemma branchesFold_covers (branches : List HistoryBranch) :
    ∀ (m : List (String × Int)) (b : HistoryBranch) (br : HistoryBranchRange),
      b ∈ branches → br ∈ b.ancestors →
      ∃ M, alistLookup
        (branches.foldl
          (fun m2 b2 => b2.ancestors.foldl
            (fun m3 br2 => alistSetMax m3 br2.branchID br2.endNodeID) m2) m)
        br.branchID = some M ∧ br.endNodeID ≤ M := by
  induction branches with
  | nil => intro m b br hb; simp at hb
  | cons b0 rest ih =>
    intro m b br hb hbr
    rcases List.mem_cons.mp hb with heq | hb2
    · obtain ⟨M0, hM0, hle0⟩ := foldl_setMax_covers b0.ancestors m br (heq ▸ hbr)
      obtain ⟨M, hM, hle⟩ := branchesFold_mono rest _ br.branchID M0 hM0
      exact ⟨M, by simpa using hM, by omega⟩
    · obtain ⟨M, hM, hle⟩ := ih _ b br hb2 hbr
      exact ⟨M, by simpa using hM, hle⟩

/-- A node row whose branch is mapped by the referred map above the row's
node id survives the whole leaf-to-root delete loop. -/
lemma deleteRanges_keeps (treeID : String) (shardID : Int)
    (referred : List (String × Int)) :
    ∀ (ranges : List HistoryBranchRange) (nodes : List HistoryNodeRow)
      (r : HistoryNodeRow) (M : Int),
      r ∈ nodes →
      alistLookup referred r.branchID = some M →
      r.nodeID < M →
      r ∈ deleteRanges treeID shardID referred ranges nodes := by
  intro ranges
  induction ranges with
  | nil =>
    intro nodes r M hr _ _
    simpa [deleteRanges] using hr
  | cons br rest ih =>
    intro nodes r M hr hM hlt
    rw [deleteRanges]
    cases hl : alistLookup referred br.branchID with
    | some m =>
      apply List.mem_filter.mpr
      refine ⟨hr, ?_⟩
      by_cases hb : r.branchID = br.branchID
      · rw [hb] at hM
        rw [hM] at hl
        have hMm : M = m := by injection hl
        have hmlt : ¬ m ≤ r.nodeID := by omega
        simp [hmlt]
      · simp [hb]
    | none =>
      apply ih
      · apply List.mem_filter.mpr
        refine ⟨hr, ?_⟩
        by_cases hb : r.branchID = br.branchID
        · rw [hb] at hM
          rw [hM] at hl
          simp at hl
        · simp [hb]
      · exact hM
      · exact hlt

/-- C3 (amended): `DeleteHistoryBranch(B)` never deletes a node row whose
`nodeId` is below the maximum `endNodeId` with which any branch fetched
for the tree — the surviving branches, and also B itself, whose tree row
is still present when `GetHistoryTree` is consulted — references that
row's branch; in particular no node referenced by a surviving branch is
removed. -/
theorem C3_delete_preserves_referred_nodes
    (req : InternalDeleteHistoryBranchRequest) (s : HistoryStoreState)
    (b : HistoryBranch) (br : HistoryBranchRange) (r : HistoryNodeRow)
    (hb : b ∈ (getHistoryTree
        { treeID := req.branchInfo.treeID, shardID := req.shardID } s).branches)
    (hbr : br ∈ b.ancestors)
    (hr : r ∈ s.nodeRows)
    (hrb : r.branchID = br.branchID)
    (hlt : r.nodeID < br.endNodeID) :
    r ∈ (deleteHistoryBranch req s).2.nodeRows := by
  obtain ⟨M, hM, hle⟩ := branchesFold_covers
    ((getHistoryTree { treeID := req.branchInfo.treeID, shardID := req.shardID } s).branches)
    [] b br hb hbr
  simp only [deleteHistoryBranch]
  apply deleteRanges_keeps _ _ _ _ _ r M hr
  · show alistLookup (GetBranchesMaxReferredNodeIDs _) r.branchID = some M
    unfold GetBranchesMaxReferredNodeIDs
    rw [hrb]
    exact hM
  · omega

/-- Concrete instantiation of `C3_delete_preserves_referred_nodes`:
deleting B keeps node 3 of ancestor branch A, which survivor C still
references up to node 4. -/
theorem C3_delete_preserves_referred_nodes_witness :
    (⟨"T", "A", 3, 0, [3], "e", 0⟩ : HistoryNodeRow) ∈
      (deleteHistoryBranch ⟨⟨"T", "B", [⟨"A", 1, 6⟩]⟩, 0⟩
        ⟨[⟨0, "T", "B", ⟨[⟨"A", 1, 6⟩], "", 0⟩⟩, ⟨0, "T", "C", ⟨[⟨"A", 1, 4⟩], "", 0⟩⟩],
         [⟨"T", "A", 3, 0, [3], "e", 0⟩]⟩).2.nodeRows :=
  C3_delete_preserves_referred_nodes
    ⟨⟨"T", "B", [⟨"A", 1, 6⟩]⟩, 0⟩
    ⟨[⟨0, "T", "B", ⟨[⟨"A", 1, 6⟩], "", 0⟩⟩, ⟨0, "T", "C", ⟨[⟨"A", 1, 4⟩], "", 0⟩⟩],
     [⟨"T", "A", 3, 0, [3], "e", 0⟩]⟩
    ⟨"T", "C", [⟨"A", 1, 4⟩]⟩ ⟨"A", 1, 4⟩ ⟨"T", "A", 3, 0, [3], "e", 0⟩
    (by decide) (by decide) (by decide) (by decide) (by decide)

/-- C3 counterexample: on a tree whose only branch is B itself (no
surviving branches), the claim's mechanism — referred map over surviving
branches only — would delete ancestor node `(A, 3)` as unreferenced, but
the store keeps it, because `GetBranchesMaxReferredNodeIDs` also sees B's
own ancestor reference `A@[1,6)`. -/
theorem C3_counterexample :
    (⟨"T", "A", 3, 0, [3], "e", 0⟩ : HistoryNodeRow) ∈
      (deleteHistoryBranch ⟨⟨"T", "B", [⟨"A", 1, 6⟩]⟩, 0⟩
        ⟨[⟨0, "T", "B", ⟨[⟨"A", 1, 6⟩], "", 0⟩⟩],
         [⟨"T", "A", 3, 0, [3], "e", 0⟩]⟩).2.nodeRows ∧
    (⟨"T", "A", 3, 0, [3], "e", 0⟩ : HistoryNodeRow) ∉
      (deleteHistoryBranchClaimed ⟨⟨"T", "B", [⟨"A", 1, 6⟩]⟩, 0⟩
        ⟨[⟨0, "T", "B", ⟨[⟨"A", 1, 6⟩], "", 0⟩⟩],
         [⟨"T", "A", 3, 0, [3], "e", 0⟩]⟩).nodeRows := by
  decide

/-- Evaluation of `readHistoryBranch` once the token handling succeeded. -/
lemma readHistoryBranch_eval (db : HistoryNodeFilter → List HistoryNodeRow)
    (req : InternalReadHistoryBranchRequest) (m : Int)
    (hm : effectiveMinNodeID req = .ok m) :
    readHistoryBranch db req =
      (if db (mkReadFilter req m) = [] then
        .ok { history := [], nextPageToken := none,
              lastNodeID := 0, lastTransactionID := 0 }
      else
        match readRows (db (mkReadFilter req m)) req.lastNodeID
            req.lastTransactionID with
        | .error e => .error e
        | .ok (hist, ln, lt) =>
          .ok { history := hist,
                nextPageToken :=
                  if req.pageSize ≤ ((db (mkReadFilter req m)).length : Int) then
                    some (serializePageToken ln)
                  else none,
                lastNodeID := ln, lastTransactionID := lt }) := by
  rw [readHistoryBranch, hm]

/-- C7 (amended): for every successful `ReadHistoryBranch` call, a
non-empty next-page token is returned iff the backend returned at least
one row and at least `pageSize` rows, and the token encodes the final
`lastNodeId`; a non-empty request token decoding to `n > 0` makes the
effective `minNodeId` equal `n + 1`, and without a token the requested
`minNodeId` is used. -/
theorem C7_read_page_token
    (db : HistoryNodeFilter → List HistoryNodeRow)
    (req : InternalReadHistoryBranchRequest)
    (resp : InternalReadHistoryBranchResponse) (m : Int)
    (hm : effectiveMinNodeID req = .ok m)
    (hok : readHistoryBranch db req = .ok resp) :
    (resp.nextPageToken ≠ none ↔
      (db (mkReadFilter req m) ≠ [] ∧
        req.pageSize ≤ ((db (mkReadFilter req m)).length : Int))) ∧
    (∀ tok, resp.nextPageToken = some tok →
      tok = serializePageToken resp.lastNodeID) ∧
    (∀ tok n, req.nextPageToken = some tok → tok ≠ [] →
      deserializePageToken tok = some n → 0 < n → m = n + 1) ∧
    (req.nextPageToken = none ∨ req.nextPageToken = some [] →
      m = req.minNodeID) := by
  have hc3 : ∀ tok n, req.nextPageToken = some tok → tok ≠ [] →
      deserializePageToken tok = some n → 0 < n → m = n + 1 := by
    intro tok n htok hne hdes _
    rw [effectiveMinNodeID, htok] at hm
    simp only [] at hm
    rw [if_neg hne, hdes] at hm
    simp only [] at hm
    injection hm with hm
    exact hm.symm
  have hc4 : req.nextPageToken = none ∨ req.nextPageToken = some [] →
      m = req.minNodeID := by
    intro hcase
    rcases hcase with hnone | hemp
    · rw [effectiveMinNodeID, hnone] at hm
      injection hm with hm
      exact hm.symm
    · rw [effectiveMinNodeID, hemp] at hm
      simp only [] at hm
      rw [if_pos trivial] at hm
      injection hm with hm
      exact hm.symm
  rw [readHistoryBranch_eval db req m hm] at hok
  by_cases hrows : db (mkReadFilter req m) = []
  · rw [if_pos hrows] at hok
    injection hok with hok
    refine ⟨?_, ?_, hc3, hc4⟩
    · rw [← hok]
      simp [hrows]
    · intro tok htok
      rw [← hok] at htok
      simp at htok
  · rw [if_neg hrows] at hok
    cases hread : readRows (db (mkReadFilter req m)) req.lastNodeID
        req.lastTransactionID with
    | error e =>
      rw [hread] at hok
      exact absurd hok (by simp)
    | ok p =>
      obtain ⟨hist, ln, lt⟩ := p
      rw [hread] at hok
      injection hok with hok
      refine ⟨?_, ?_, hc3, hc4⟩
      · rw [← hok]
        by_cases hps : req.pageSize ≤ ((db (mkReadFilter req m)).length : Int)
        · simp [hps, hrows, serializePageToken]
        · simp [hps, hrows]
      · intro tok htok
        rw [← hok] at htok ⊢
        by_cases hps : req.pageSize ≤ ((db (mkReadFilter req m)).length : Int)
        · simp only [hps, if_true, if_pos hps] at htok ⊢
          simp at htok ⊢
          exact htok.symm
        · simp [hps] at htok

/-- Concrete instantiation of `C7_read_page_token`: a one-row page with
`pageSize = 1` yields a non-empty token. -/
theorem C7_read_page_token_witness :
    ((⟨[⟨[2], "e"⟩], some [3], 3, 101⟩ :
        InternalReadHistoryBranchResponse).nextPageToken ≠ none) ↔
      ((fun (_ : HistoryNodeFilter) =>
            [(⟨"T", "B", 3, 101, [2], "e", 0⟩ : HistoryNodeRow)])
          (mkReadFilter ⟨"T", "B", 1, 10, 1, none, 0, 0, 0⟩ 1) ≠ [] ∧
        (⟨"T", "B", 1, 10, 1, none, 0, 0, 0⟩ :
            InternalReadHistoryBranchRequest).pageSize ≤
          (((fun (_ : HistoryNodeFilter) =>
                [(⟨"T", "B", 3, 101, [2], "e", 0⟩ : HistoryNodeRow)])
              (mkReadFilter ⟨"T", "B", 1, 10, 1, none, 0, 0, 0⟩ 1)).length : Int)) :=
  (C7_read_page_token
      (fun _ => [⟨"T", "B", 3, 101, [2], "e", 0⟩])
      ⟨"T", "B", 1, 10, 1, none, 0, 0, 0⟩
      ⟨[⟨[2], "e"⟩], some [3], 3, 101⟩ 1 rfl (by decide)).1

/-- C7 counterexample: a `pageSize = 0` request against a backend that
returns zero rows succeeds with no next-page token, although the backend
returned at least `pageSize` rows (`0 >= 0`), so the claimed "if and only
if" fails as stated. -/
theorem C7_counterexample :
    readHistoryBranch (fun _ => []) ⟨"T", "B", 1, 10, 0, none, 0, 0, 0⟩ =
      .ok ⟨[], none, 0, 0⟩ ∧
    ¬ (((⟨[], none, 0, 0⟩ :
          InternalReadHistoryBranchResponse).nextPageToken ≠ none) ↔
        (⟨"T", "B", 1, 10, 0, none, 0, 0, 0⟩ :
            InternalReadHistoryBranchRequest).pageSize ≤
          ((((fun (_ : HistoryNodeFilter) => ([] : List HistoryNodeRow))
              (mkReadFilter ⟨"T", "B", 1, 10, 0, none, 0, 0, 0⟩ 1))).length : Int)) := by
  constructor
  · decide
  · decide

/-- C8 (amended): when the addressed tree or branch is absent,
`ReadHistoryBranch` and `GetHistoryTree` return empty responses with no
error, while `ForkHistoryBranch` performs no existence check at all (it
succeeds whenever the backend insert succeeds) and `DeleteHistoryBranch`
returns success having deleted nothing — neither returns `NotFound`. -/
theorem C8_absent_tree_reads_empty_no_notfound
    (req : InternalReadHistoryBranchRequest) (m : Int)
    (db : HistoryNodeFilter → List HistoryNodeRow)
    (greq : InternalGetHistoryTreeRequest)
    (dreq : InternalDeleteHistoryBranchRequest)
    (freq : InternalForkHistoryBranchRequest)
    (s : HistoryStoreState) (now : Int)
    (hm : effectiveMinNodeID req = .ok m)
    (hempty : db (mkReadFilter req m) = [])
    (htree : selectFromHistoryTree s greq.treeID greq.shardID = []) :
    readHistoryBranch db req = .ok ⟨[], none, 0, 0⟩ ∧
    getHistoryTree greq s = ⟨[]⟩ ∧
    (deleteHistoryBranch dreq s).1 = .ok () ∧
    (∃ resp, (forkHistoryBranch freq now (.ok 1) s).1 = .ok resp) := by
  refine ⟨?_, ?_, rfl, ?_⟩
  · rw [readHistoryBranch_eval db req m hm, if_pos hempty]
  · rw [getHistoryTree, htree]
    rfl
  · exact ⟨_, rfl⟩

/-- Concrete instantiation of `C8_absent_tree_reads_empty_no_notfound` on
an entirely empty store. -/
theorem C8_absent_tree_reads_empty_no_notfound_witness :
    readHistoryBranch (fun _ => []) ⟨"T", "B", 1, 10, 5, none, 0, 0, 0⟩ =
      .ok ⟨[], none, 0, 0⟩ ∧
    getHistoryTree ⟨"T", 0⟩ ⟨[], []⟩ = ⟨[]⟩ ∧
    (deleteHistoryBranch ⟨⟨"T", "B", [⟨"A", 1, 6⟩]⟩, 0⟩ ⟨[], []⟩).1 = .ok () ∧
    (∃ resp, (forkHistoryBranch ⟨⟨"T", "B1", []⟩, 2, "B2", "", 0⟩ 0
        (.ok 1) ⟨[], []⟩).1 = .ok resp) :=
  C8_absent_tree_reads_empty_no_notfound
    ⟨"T", "B", 1, 10, 5, none, 0, 0, 0⟩ 1 (fun _ => []) ⟨"T", 0⟩
    ⟨⟨"T", "B", [⟨"A", 1, 6⟩]⟩, 0⟩ ⟨⟨"T", "B1", []⟩, 2, "B2", "", 0⟩
    ⟨[], []⟩ 0 rfl rfl rfl

/-- C8 counterexample: on an empty store, `DeleteHistoryBranch` of an
absent branch returns success (deleting nothing) and `ForkHistoryBranch`
of an absent source succeeds and inserts the new tree row — neither
returns the explicit `NotFound` error the claim states. -/
theorem C8_counterexample :
    deleteHistoryBranch ⟨⟨"T", "B", [⟨"A", 1, 6⟩]⟩, 0⟩ ⟨[], []⟩ =
      (.ok (), ⟨[], []⟩) ∧
    (forkHistoryBranch ⟨⟨"T", "B1", []⟩, 2, "B2", "", 0⟩ 0 (.ok 1) ⟨[], []⟩).1 =
      .ok ⟨⟨"T", "B2", [⟨"B1", 1, 2⟩]⟩⟩ := by
  constructor
  · decide
  · decide

/-- C9: concrete evidence of the shard-progression bug of
`GetAllHistoryTreeBranches`: against `dbTwoShards` (one tree row on shard
0, one on shard 1) a first page of size 10 returns shard 0's single row
with NO next-page token — the enumeration ends although shard 1 still
holds a row, because the store never advances the token's `shardId` when a
shard's page is under-full. -/
theorem C9_get_all_branches_never_advances_shard :
    getAllHistoryTreeBranches dbTwoShards ⟨none, 10⟩ =
      .ok ⟨[⟨"T0", "B0", 0, "s0"⟩], none⟩ ∧
    dbTwoShards ⟨1, "", "", 10⟩ = [⟨1, "T1", "B1", ⟨[], "s1", 0⟩⟩] := by
  constructor
  · decide
  · decide

/-- C10: a `ReadHistoryBranch` whose backend page is empty returns the
all-zero empty response — empty history, nil token, `LastNodeID = 0`,
`LastTransactionID = 0`, not the request's watermark — while a non-empty
page carries the walk's updated watermark. -/
theorem C10_read_empty_zero_watermark
    (db : HistoryNodeFilter → List HistoryNodeRow)
    (req : InternalReadHistoryBranchRequest) (m : Int)
    (hm : effectiveMinNodeID req = .ok m) :
    (db (mkReadFilter req m) = [] →
      readHistoryBranch db req =
        .ok { history := [], nextPageToken := none,
              lastNodeID := 0, lastTransactionID := 0 }) ∧
    (∀ hist ln lt, db (mkReadFilter req m) ≠ [] →
      readRows (db (mkReadFilter req m)) req.lastNodeID req.lastTransactionID =
        .ok (hist, ln, lt) →
      readHistoryBranch db req =
        .ok { history := hist,
              nextPageToken :=
                if req.pageSize ≤ ((db (mkReadFilter req m)).length : Int) then
                  some (serializePageToken ln)
                else none,
              lastNodeID := ln, lastTransactionID := lt }) := by
  constructor
  · intro hrows
    rw [readHistoryBranch_eval db req m hm, if_pos hrows]
  · intro hist ln lt hne hread
    rw [readHistoryBranch_eval db req m hm, if_neg hne, hread]

/-- Concrete instantiation of `C10_read_empty_zero_watermark`: the request
watermark `(7, 9)` is not echoed back on an empty page. -/
theorem C10_read_empty_zero_watermark_witness :
    readHistoryBranch (fun _ => []) ⟨"T", "B", 1, 10, 5, none, 7, 9, 0⟩ =
      .ok ⟨[], none, 0, 0⟩ :=
  (C10_read_empty_zero_watermark (fun _ => [])
    ⟨"T", "B", 1, 10, 5, none, 7, 9, 0⟩ 1 rfl).1 rfl
